import Mathlib

/-!
Shallow embedding of the battleship game engine (`battleship.py`).

Python integers are modelled as `Int`, positions as `Int × Int` (row, column),
ordered containers as `List`.  Methods that mutate `self` are embedded as
functions returning the updated value (together with the method's return
value where there is one).  The unbounded `while` loop in `Ship.rotate` is
embedded fuel-style (`rotateFuel`): `none` means the loop has not terminated
within the given number of iterations.
-/

namespace Battleship

abbrev Pos := Int × Int

inductive Direction where
  | UP
  | DOWN
  | LEFT
  | RIGHT
deriving DecidableEq, Fintype, Inhabited

def rotate_clockwise : Direction → Direction
  | .UP => .RIGHT
  | .RIGHT => .DOWN
  | .DOWN => .LEFT
  | .LEFT => .UP

def pos_in_bounds (pos : Pos) (bounds_y bounds_x : Int × Int) : Bool :=
  decide (pos.1 > bounds_y.1) && decide (pos.1 < bounds_y.2) &&
  decide (pos.2 > bounds_x.1) && decide (pos.2 < bounds_x.2)

inductive HitType where
  | MISS
  | HIT
  | SUNK
deriving DecidableEq

structure Hit where
  target_position : Pos
  hit_type : HitType
  character : String
  ship_positions : List Pos
deriving DecidableEq

def Hit.miss (target_pos : Pos) : Hit :=
  ⟨target_pos, HitType.MISS, "O", []⟩

def Hit.hit (target_pos : Pos) : Hit :=
  ⟨target_pos, HitType.HIT, "X", []⟩

def Hit.sunk (target_pos : Pos) (ship_char : String) (positions : List Pos) : Hit :=
  ⟨target_pos, HitType.SUNK, ship_char, positions⟩

inductive ShipType where
  | PatrolBoat
  | Submarine
  | Destroyer
  | Battleship
  | Carrier
deriving DecidableEq, Fintype

def ShipType.size_of : ShipType → Nat
  | .PatrolBoat => 2
  | .Submarine => 3
  | .Destroyer => 3
  | .Battleship => 4
  | .Carrier => 5

def ShipType.value : ShipType → String
  | .PatrolBoat => "P"
  | .Submarine => "S"
  | .Destroyer => "D"
  | .Battleship => "B"
  | .Carrier => "C"

structure Ship where
  ship_type : ShipType
  size : Nat
  hits : List Bool
  start_pos : Pos
  rotation : Direction
  bounds_y : Int × Int
  bounds_x : Int × Int
  positions : List Pos
deriving DecidableEq

def Ship.generate_positions (start_pos : Pos) (rotation : Direction) (ship_size : Nat) :
    List Pos :=
  (List.range ship_size).map fun (i : Nat) =>
    match rotation with
    | .RIGHT => (start_pos.1, start_pos.2 + (i : Int))
    | .LEFT => (start_pos.1, start_pos.2 - (i : Int))
    | .UP => (start_pos.1 - (i : Int), start_pos.2)
    | .DOWN => (start_pos.1 + (i : Int), start_pos.2)

/-- `Ship.in_bounds` reads `positions[0]` and `positions[-1]`; it is only ever
called on a freshly generated list of length `size ≥ 2`, so the defaults used
for the empty list are never reached at those call sites. -/
def ship_in_bounds (positions : List Pos) (bounds_y bounds_x : Int × Int) : Bool :=
  pos_in_bounds (positions.headD (0, 0)) bounds_y bounds_x &&
  pos_in_bounds (positions.getLastD (0, 0)) bounds_y bounds_x

def Ship.in_bounds (s : Ship) : Bool :=
  ship_in_bounds s.positions s.bounds_y s.bounds_x

/-- `update_positions`: regenerate `positions` from the candidate start; on a
bounds failure restore the old positions and report `false`, otherwise commit
the new start and report `true`. -/
def Ship.update_positions (s : Ship) (start_pos : Pos) : Bool × Ship :=
  let new_positions := Ship.generate_positions start_pos s.rotation s.size
  if ship_in_bounds new_positions s.bounds_y s.bounds_x then
    (true, { s with positions := new_positions, start_pos := start_pos })
  else
    (false, s)

/-- `Ship.__init__`: size from the ship type, damage flags all false, positions
initialised to `[]` and then set by `update_positions` (which leaves them `[]`
when the initial placement is out of bounds). -/
def Ship.init (ship_type : ShipType) (start_pos : Pos) (rotation : Direction)
    (bounds_y bounds_x : Int × Int) : Ship :=
  let size := ShipType.size_of ship_type
  (Ship.update_positions
    ⟨ship_type, size, List.replicate size false, start_pos, rotation, bounds_y, bounds_x, []⟩
    start_pos).2

def moveTarget (s : Ship) (direction : Direction) : Pos :=
  match direction with
  | .RIGHT => (s.start_pos.1, s.start_pos.2 + 1)
  | .LEFT => (s.start_pos.1, s.start_pos.2 - 1)
  | .UP => (s.start_pos.1 - 1, s.start_pos.2)
  | .DOWN => (s.start_pos.1 + 1, s.start_pos.2)

def Ship.move (s : Ship) (direction : Direction) : Ship :=
  (s.update_positions (moveTarget s direction)).2

/-- One advance of the rotation followed by one `update_positions` attempt,
iterated at most `fuel` times; `none` models the `while` loop in
`Ship.rotate` not having terminated within `fuel` iterations. -/
def rotateFuel : Nat → Ship → Option Ship
  | 0, _ => none
  | fuel + 1, s =>
    let s1 := { s with rotation := rotate_clockwise s.rotation }
    let r := s1.update_positions s1.start_pos
    if r.1 then some r.2 else rotateFuel fuel r.2

/-- `Ship.rotate`: the loop tries each of the four orientations within four
iterations, so when any orientation is valid `rotateFuel 4` returns `some`;
the `getD` default is never reached in that case. -/
def Ship.rotate (s : Ship) : Ship :=
  (rotateFuel 4 s).getD s

def Ship.check_hit (s : Ship) (hit_pos : Pos) (is_missile : Bool) : Hit × Ship :=
  match s.positions.findIdx? (fun p => decide (p = hit_pos)) with
  | some i =>
    let new_hits := s.hits.set i is_missile
    let s' := { s with hits := new_hits }
    if is_missile && new_hits.all (fun b => b) then
      (Hit.sunk hit_pos s.ship_type.value s.positions, s')
    else
      (Hit.hit hit_pos, s')
  | none => (Hit.miss hit_pos, s)

structure Fleet where
  ships : List Ship
deriving DecidableEq

def Fleet.check_hit_list (hit_pos : Pos) (is_missile : Bool) : List Ship → Hit × List Ship
  | [] => (Hit.miss hit_pos, [])
  | s :: rest =>
    let res := s.check_hit hit_pos is_missile
    if res.1.hit_type ≠ HitType.MISS then
      (res.1, res.2 :: rest)
    else
      let tail := Fleet.check_hit_list hit_pos is_missile rest
      (tail.1, res.2 :: tail.2)

def Fleet.check_hit (fl : Fleet) (hit_pos : Pos) (is_missile : Bool) : Hit × Fleet :=
  let r := Fleet.check_hit_list hit_pos is_missile fl.ships
  (r.1, ⟨r.2⟩)

theorem Ship.check_hit_miss_iff (s : Ship) (p : Pos) (m : Bool) :
    (s.check_hit p m).1.hit_type = HitType.MISS ↔
      s.positions.findIdx? (fun q => decide (q = p)) = none := by
  unfold Ship.check_hit
  cases h : s.positions.findIdx? (fun q => decide (q = p)) with
  | none => simp [Hit.miss]
  | some i =>
    simp only []
    split <;> simp [Hit.sunk, Hit.hit]

theorem Ship.check_hit_miss_snd (s : Ship) (p : Pos) (m : Bool)
    (h : (s.check_hit p m).1.hit_type = HitType.MISS) : (s.check_hit p m).2 = s := by
  rw [Ship.check_hit_miss_iff] at h
  unfold Ship.check_hit
  rw [h]

theorem check_hit_list_miss_iff (p : Pos) (m : Bool) (ships : List Ship) :
    (Fleet.check_hit_list p m ships).1.hit_type = HitType.MISS ↔
      ∀ s ∈ ships, (s.check_hit p m).1.hit_type = HitType.MISS := by
  induction ships with
  | nil => simp [Fleet.check_hit_list, Hit.miss]
  | cons s rest ih =>
    unfold Fleet.check_hit_list
    simp only []
    split
    · rename_i hne
      simp only [List.mem_cons]
      constructor
      · intro h; exact absurd h hne
      · intro h; exact absurd (h s (Or.inl rfl)) hne
    · rename_i hm
      push_neg at hm
      simp only [List.mem_cons]
      rw [ih]
      constructor
      · intro h t ht
        rcases ht with h1 | h2
        · rw [h1]; exact hm
        · exact h t h2
      · intro h t ht; exact h t (Or.inr ht)

theorem check_hit_list_first_non_miss (p : Pos) (m : Bool) (l1 : List Ship) (s : Ship)
    (l2 : List Ship) (h1 : ∀ t ∈ l1, (t.check_hit p m).1.hit_type = HitType.MISS)
    (h2 : (s.check_hit p m).1.hit_type ≠ HitType.MISS) :
    Fleet.check_hit_list p m (l1 ++ s :: l2) =
      ((s.check_hit p m).1, l1 ++ (s.check_hit p m).2 :: l2) := by
  induction l1 with
  | nil =>
    unfold Fleet.check_hit_list
    simp only [List.nil_append]
    rw [if_pos h2]
  | cons t ts ih =>
    have ht : (t.check_hit p m).1.hit_type = HitType.MISS := h1 t (List.mem_cons_self t ts)
    have hts : ∀ u ∈ ts, (u.check_hit p m).1.hit_type = HitType.MISS :=
      fun u hu => h1 u (List.mem_cons_of_mem t hu)
    unfold Fleet.check_hit_list
    simp only [List.cons_append]
    rw [if_neg (by simp [ht])]
    rw [ih hts, Ship.check_hit_miss_snd t p m ht]

/-- C1: `Fleet.check_hit` returns Miss iff every ship in the fleet reports Miss
for the target position; otherwise it returns the result of the first ship, in
insertion order, whose `check_hit` result is not Miss, and the ships after that
first non-Miss ship are left untouched (not consulted). -/
theorem fleet_check_hit_first_non_miss (p : Pos) (m : Bool) (ships : List Ship) :
    ((Fleet.check_hit ⟨ships⟩ p m).1.hit_type = HitType.MISS ↔
       ∀ s ∈ ships, (s.check_hit p m).1.hit_type = HitType.MISS)
    ∧ (∀ l1 s l2, ships = l1 ++ s :: l2 →
        (∀ t ∈ l1, (t.check_hit p m).1.hit_type = HitType.MISS) →
        (s.check_hit p m).1.hit_type ≠ HitType.MISS →
        (Fleet.check_hit ⟨ships⟩ p m).1 = (s.check_hit p m).1 ∧
          (Fleet.check_hit ⟨ships⟩ p m).2.ships = l1 ++ (s.check_hit p m).2 :: l2) := by
  constructor
  · exact check_hit_list_miss_iff p m ships
  · intro l1 s l2 hsplit hmiss hnon
    unfold Fleet.check_hit
    rw [hsplit, check_hit_list_first_non_miss p m l1 s l2 hmiss hnon]
    exact ⟨rfl, rfl⟩

def wShipA : Ship := Ship.init ShipType.PatrolBoat (2, 2) Direction.RIGHT (0, 9) (0, 9)

def wShipB : Ship := Ship.init ShipType.Submarine (5, 2) Direction.RIGHT (0, 9) (0, 9)

theorem fleet_check_hit_first_non_miss_witness :
    (Fleet.check_hit ⟨[wShipA, wShipB]⟩ (5, 3) true).1 = (wShipB.check_hit (5, 3) true).1 ∧
      (Fleet.check_hit ⟨[wShipA, wShipB]⟩ (5, 3) true).2.ships =
        [wShipA] ++ (wShipB.check_hit (5, 3) true).2 :: [] :=
  (fleet_check_hit_first_non_miss (5, 3) true [wShipA, wShipB]).2 [wShipA] wShipB []
    rfl (by decide) (by decide)

/-- C2: with `is_missile = true`, a shot on an occupied cell whose damage flag
is the last one that could still be false (all flags at other indices are
already true) returns Sunk carrying exactly the ship's identifier character and
its full position list; a shot on an occupied cell that leaves some other flag
still false returns Hit. -/
theorem ship_check_hit_sunk_on_last_flag (s : Ship) (p : Pos) (i : Nat)
    (hfind : s.positions.findIdx? (fun q => decide (q = p)) = some i) :
    ((∀ j, (hj : j < s.hits.length) → j ≠ i → s.hits[j] = true) →
       (s.check_hit p true).1 = Hit.sunk p s.ship_type.value s.positions)
    ∧ ((∃ j, ∃ hj : j < s.hits.length, j ≠ i ∧ s.hits[j] = false) →
       (s.check_hit p true).1 = Hit.hit p) := by
  constructor
  · intro hall
    unfold Ship.check_hit
    rw [hfind]
    simp only []
    rw [if_pos]
    rw [Bool.and_eq_true]
    refine ⟨rfl, ?_⟩
    rw [List.all_eq_true]
    intro x hx
    rw [List.mem_iff_getElem] at hx
    obtain ⟨j, hj, hxj⟩ := hx
    rw [List.length_set] at hj
    rw [List.getElem_set] at hxj
    by_cases hij : i = j
    · simp [hij] at hxj; simp [← hxj]
    · rw [if_neg hij] at hxj
      rw [← hxj]
      exact hall j hj (fun hji => hij hji.symm)
  · intro hex
    obtain ⟨j, hj, hji, hjf⟩ := hex
    unfold Ship.check_hit
    rw [hfind]
    simp only []
    rw [if_neg]
    intro hcon
    rw [Bool.and_eq_true, List.all_eq_true] at hcon
    have hjs : j < (s.hits.set i true).length := by rw [List.length_set]; exact hj
    have hmem : (s.hits.set i true)[j] ∈ s.hits.set i true := List.getElem_mem hjs
    have := hcon.2 _ hmem
    rw [List.getElem_set, if_neg (fun h => hji h.symm)] at this
    rw [hjf] at this
    exact Bool.false_ne_true this

def wShipC2 : Ship :=
  { Ship.init ShipType.Destroyer (5, 5) Direction.RIGHT (0, 20) (0, 20) with
    hits := [true, true, false] }

theorem ship_check_hit_sunk_on_last_flag_witness :
    (wShipC2.check_hit (5, 7) true).1 =
      Hit.sunk (5, 7) wShipC2.ship_type.value wShipC2.positions :=
  (ship_check_hit_sunk_on_last_flag wShipC2 (5, 7) 2 (by decide)).1 (by decide)

/-- C10: with `is_missile = false`, a shot on an occupied cell writes `false`
into that cell's damage flag (erasing any previously recorded hit there) and
returns Hit, never Sunk, regardless of the other damage flags. -/
theorem ship_check_hit_probe_clears_flag (s : Ship) (p : Pos) (i : Nat)
    (hfind : s.positions.findIdx? (fun q => decide (q = p)) = some i) :
    (s.check_hit p false).1 = Hit.hit p ∧
      (s.check_hit p false).2.hits = s.hits.set i false := by
  unfold Ship.check_hit
  rw [hfind]
  simp

def wShipC10 : Ship :=
  { Ship.init ShipType.PatrolBoat (3, 3) Direction.RIGHT (0, 9) (0, 9) with
    hits := [true, true] }

theorem ship_check_hit_probe_clears_flag_witness :
    (wShipC10.check_hit (3, 4) false).1 = Hit.hit (3, 4) ∧
      (wShipC10.check_hit (3, 4) false).2.hits = wShipC10.hits.set 1 false :=
  ship_check_hit_probe_clears_flag wShipC10 (3, 4) 1 (by decide)

def validB (s : Ship) (o : Direction) : Bool :=
  ship_in_bounds (Ship.generate_positions s.start_pos o s.size) s.bounds_y s.bounds_x

def setRot (s : Ship) (r : Direction) : Ship :=
  { s with rotation := r,
           positions := Ship.generate_positions s.start_pos r s.size }

/-- First orientation with `v = true` among the four clockwise successors of
`r` (falling back to the fourth successor, which is `r` itself); this is the
orientation `Ship.rotate`'s loop stops at. -/
def stepDir (v : Direction → Bool) (r : Direction) : Direction :=
  if v (rotate_clockwise r) then rotate_clockwise r
  else if v (rotate_clockwise (rotate_clockwise r)) then
    rotate_clockwise (rotate_clockwise r)
  else if v (rotate_clockwise (rotate_clockwise (rotate_clockwise r))) then
    rotate_clockwise (rotate_clockwise (rotate_clockwise r))
  else rotate_clockwise (rotate_clockwise (rotate_clockwise (rotate_clockwise r)))

def countValid (v : Direction → Bool) : Nat :=
  (if v .UP then 1 else 0) + (if v .DOWN then 1 else 0) +
  (if v .LEFT then 1 else 0) + (if v .RIGHT then 1 else 0)

theorem stepDir_four : ∀ (v : Direction → Bool) (r : Direction), v r = true →
    countValid v ≠ 3 → stepDir v (stepDir v (stepDir v (stepDir v r))) = r := by decide

theorem stepDir_valid : ∀ (v : Direction → Bool) (r : Direction), (∃ o, v o = true) →
    v (stepDir v r) = true := by decide

theorem rotateFuel_succ (s : Ship) (n : Nat) :
    rotateFuel (n + 1) s =
      if validB s (rotate_clockwise s.rotation)
      then some (setRot s (rotate_clockwise s.rotation))
      else rotateFuel n { s with rotation := rotate_clockwise s.rotation } := by
  show (if (Ship.update_positions { s with rotation := rotate_clockwise s.rotation }
      s.start_pos).1 = true then _ else _) = _
  unfold Ship.update_positions
  by_cases h : validB s (rotate_clockwise s.rotation)
  · rw [if_pos h]
    have h' : ship_in_bounds
        (Ship.generate_positions s.start_pos (rotate_clockwise s.rotation) s.size)
        s.bounds_y s.bounds_x = true := h
    simp only [h', if_pos]
    rfl
  · rw [if_neg h]
    have h' : ship_in_bounds
        (Ship.generate_positions s.start_pos (rotate_clockwise s.rotation) s.size)
        s.bounds_y s.bounds_x = false := Bool.of_not_eq_true h
    simp only [h', Bool.false_eq_true, if_false]

theorem four_cover (r o : Direction) :
    o = rotate_clockwise r ∨ o = rotate_clockwise (rotate_clockwise r) ∨
      o = rotate_clockwise (rotate_clockwise (rotate_clockwise r)) ∨
      o = rotate_clockwise (rotate_clockwise (rotate_clockwise (rotate_clockwise r))) := by
  cases r <;> cases o <;> simp [rotate_clockwise]

theorem rotateFuel_four (s : Ship) (h : ∃ o, validB s o = true) :
    rotateFuel 4 s = some (setRot s (stepDir (validB s) s.rotation)) := by
  have hproj : ∀ (o : Direction), ({ s with rotation := o } : Ship).rotation = o :=
    fun _ => rfl
  have hv : ∀ (o o' : Direction), validB { s with rotation := o } o' = validB s o' :=
    fun _ _ => rfl
  have hsr : ∀ (o o' : Direction), setRot { s with rotation := o } o' = setRot s o' :=
    fun _ _ => rfl
  unfold stepDir
  by_cases h1 : validB s (rotate_clockwise s.rotation) = true
  · rw [rotateFuel_succ, if_pos h1, if_pos h1]
  · rw [rotateFuel_succ, if_neg h1, if_neg h1, rotateFuel_succ]
    simp only [hproj, hv, hsr]
    by_cases h2 : validB s (rotate_clockwise (rotate_clockwise s.rotation)) = true
    · rw [if_pos h2, if_pos h2]
    · rw [if_neg h2, if_neg h2, rotateFuel_succ]
      simp only [hproj, hv, hsr]
      by_cases h3 :
          validB s (rotate_clockwise (rotate_clockwise (rotate_clockwise s.rotation))) = true
      · rw [if_pos h3, if_pos h3]
      · rw [if_neg h3, if_neg h3, rotateFuel_succ]
        simp only [hproj, hv, hsr]
        by_cases h4 : validB s
            (rotate_clockwise (rotate_clockwise (rotate_clockwise
              (rotate_clockwise s.rotation)))) = true
        · rw [if_pos h4]
        · exfalso
          obtain ⟨o, ho⟩ := h
          rcases four_cover s.rotation o with hc | hc | hc | hc <;> rw [hc] at ho
          · exact h1 ho
          · exact h2 ho
          · exact h3 ho
          · exact h4 ho

theorem rotate_eq_setRot (s : Ship) (h : ∃ o, validB s o = true) :
    s.rotate = setRot s (stepDir (validB s) s.rotation) := by
  unfold Ship.rotate
  rw [rotateFuel_four s h]
  rfl

theorem setRot_rotate (s : Ship) (r : Direction) (h : ∃ o, validB s o = true) :
    (setRot s r).rotate = setRot s (stepDir (validB s) r) := by
  have h' : ∃ o, validB (setRot s r) o = true := h
  rw [rotate_eq_setRot (setRot s r) h']
  rfl

/-- C4 (amended): for a ship whose positions agree with its start position and
orientation, whose current orientation passes the bounds test, and for which
the number of in-bounds orientations from its start position is not exactly
three, applying `rotate` four times returns the ship to its original
orientation and its original position list.  (With exactly three valid
orientations the four rotations advance the ship by a net one valid
orientation, so the original claim fails; see the counterexample.) -/
theorem ship_rotate_four_cycle (s : Ship)
    (hpos : s.positions = Ship.generate_positions s.start_pos s.rotation s.size)
    (hcur : validB s s.rotation = true)
    (hc : countValid (validB s) ≠ 3) :
    (s.rotate.rotate.rotate.rotate).rotation = s.rotation ∧
      (s.rotate.rotate.rotate.rotate).positions = s.positions := by
  have h : ∃ o, validB s o = true := ⟨s.rotation, hcur⟩
  rw [rotate_eq_setRot s h, setRot_rotate s _ h, setRot_rotate s _ h, setRot_rotate s _ h]
  rw [stepDir_four (validB s) s.rotation hcur hc]
  exact ⟨rfl, hpos.symm⟩

def wShipC4 : Ship := Ship.init ShipType.Submarine (10, 10) Direction.RIGHT (0, 20) (0, 20)

theorem ship_rotate_four_cycle_witness :
    (wShipC4.rotate.rotate.rotate.rotate).rotation = wShipC4.rotation ∧
      (wShipC4.rotate.rotate.rotate.rotate).positions = wShipC4.positions :=
  ship_rotate_four_cycle wShipC4 (by decide) (by decide) (by decide)

def cexShipC4 : Ship := Ship.init ShipType.Submarine (2, 5) Direction.RIGHT (0, 10) (0, 10)

theorem ship_rotate_four_cycle_cex :
    (∃ o, validB cexShipC4 o = true) ∧
      ¬((cexShipC4.rotate.rotate.rotate.rotate).rotation = cexShipC4.rotation ∧
        (cexShipC4.rotate.rotate.rotate.rotate).positions = cexShipC4.positions) := by
  decide

theorem rotateFuel_none (n : Nat) : ∀ (s : Ship), (∀ o, validB s o = false) →
    rotateFuel n s = none := by
  induction n with
  | zero => intro s _; rfl
  | succ k ih =>
    intro s h
    rw [rotateFuel_succ, if_neg (by simp [h])]
    exact ih _ (fun o => h o)

/-- C5: the rotation loop terminates (within the four iterations that try
every orientation) whenever some orientation from the current start position
is in bounds, leaving the ship in an in-bounds orientation; when no
orientation fits, the loop never terminates: `rotateFuel n` is `none` for
every fuel `n`. -/
theorem ship_rotate_termination (s : Ship) :
    ((∃ o, validB s o = true) → ∃ t, rotateFuel 4 s = some t ∧ t.in_bounds = true)
    ∧ ((∀ o, validB s o = false) → ∀ n, rotateFuel n s = none) := by
  constructor
  · intro h
    refine ⟨setRot s (stepDir (validB s) s.rotation), rotateFuel_four s h, ?_⟩
    exact stepDir_valid (validB s) s.rotation h
  · intro h n
    exact rotateFuel_none n s h

theorem ship_rotate_termination_witness :
    ∃ t, rotateFuel 4 wShipA = some t ∧ t.in_bounds = true :=
  (ship_rotate_termination wShipA).1 (by decide)

/-- C7: `move` never changes the ship's orientation, damage flags, type or
size; and when the regenerated placement at the shifted start fails the
bounds test, the move is a silent no-op: positions and start position are
also unchanged. -/
theorem ship_move_frame (s : Ship) (d : Direction) :
    ((s.move d).rotation = s.rotation ∧ (s.move d).hits = s.hits ∧
       (s.move d).ship_type = s.ship_type ∧ (s.move d).size = s.size)
    ∧ (ship_in_bounds (Ship.generate_positions (moveTarget s d) s.rotation s.size)
         s.bounds_y s.bounds_x = false →
       (s.move d).positions = s.positions ∧ (s.move d).start_pos = s.start_pos) := by
  unfold Ship.move Ship.update_positions
  simp only []
  constructor
  · split
    · exact ⟨rfl, rfl, rfl, rfl⟩
    · exact ⟨rfl, rfl, rfl, rfl⟩
  · intro h
    rw [if_neg (by simp [h])]
    exact ⟨rfl, rfl⟩

def wShipC7 : Ship := Ship.init ShipType.PatrolBoat (1, 1) Direction.RIGHT (0, 9) (0, 9)

theorem ship_move_frame_witness :
    ((wShipC7.move Direction.UP).rotation = wShipC7.rotation ∧
       (wShipC7.move Direction.UP).hits = wShipC7.hits ∧
       (wShipC7.move Direction.UP).ship_type = wShipC7.ship_type ∧
       (wShipC7.move Direction.UP).size = wShipC7.size)
    ∧ ((wShipC7.move Direction.UP).positions = wShipC7.positions ∧
       (wShipC7.move Direction.UP).start_pos = wShipC7.start_pos) :=
  ⟨(ship_move_frame wShipC7 Direction.UP).1,
   (ship_move_frame wShipC7 Direction.UP).2 (by decide)⟩

theorem generate_positions_length (p : Pos) (r : Direction) (n : Nat) :
    (Ship.generate_positions p r n).length = n := by
  cases r <;> simp [Ship.generate_positions]

/-- The data-model invariant on a ship: its positions are exactly the list
generated from its start position and orientation, there are exactly `size`
of them, and there are exactly `size` damage flags. -/
def shipWF (s : Ship) : Prop :=
  s.positions = Ship.generate_positions s.start_pos s.rotation s.size ∧
  s.positions.length = s.size ∧ s.hits.length = s.size

theorem update_positions_wf (s : Ship) (p : Pos) (h : shipWF s) :
    shipWF (s.update_positions p).2 := by
  unfold Ship.update_positions
  simp only []
  split
  · exact ⟨rfl, generate_positions_length p s.rotation s.size, h.2.2⟩
  · exact h

theorem rotateFuel_wf (n : Nat) : ∀ (s t : Ship), rotateFuel n s = some t →
    t.hits = s.hits ∧ t.size = s.size ∧
      t.positions = Ship.generate_positions t.start_pos t.rotation t.size ∧
      t.positions.length = t.size := by
  induction n with
  | zero => intro s t h; simp [rotateFuel] at h
  | succ k ih =>
    intro s t h
    rw [rotateFuel_succ] at h
    by_cases hc : validB s (rotate_clockwise s.rotation) = true
    · rw [if_pos hc] at h
      injection h with h'
      rw [← h']
      exact ⟨rfl, rfl, rfl, generate_positions_length _ _ _⟩
    · rw [if_neg hc] at h
      exact ih { s with rotation := rotate_clockwise s.rotation } t h

/-- C6 (amended): a freshly constructed ship has damage flags
`replicate size false` (exactly `size` of them, all false) and its declared
size is the one assigned to its ship type; provided the initial placement
from its start position and orientation passes the bounds test, it also
satisfies the full data-model invariant `shipWF`: its positions are exactly
the `size`-entry list generated from its start position and orientation.
Every mutating ship operation — `update_positions`, `move`, `rotate`,
`check_hit` — preserves `shipWF`.  (Without the bounds proviso the original
claim fails: an out-of-bounds construction leaves `positions = []`; see the
counterexample.) -/
theorem ship_size_invariant :
    (∀ ty sp rot bY bX,
       (Ship.init ty sp rot bY bX).hits =
           List.replicate (Ship.init ty sp rot bY bX).size false ∧
       (Ship.init ty sp rot bY bX).size = ShipType.size_of ty ∧
       (ship_in_bounds (Ship.generate_positions sp rot (ShipType.size_of ty)) bY bX = true →
         shipWF (Ship.init ty sp rot bY bX)))
    ∧ (∀ (s : Ship) p, shipWF s → shipWF (s.update_positions p).2)
    ∧ (∀ (s : Ship) d, shipWF s → shipWF (s.move d))
    ∧ (∀ (s : Ship), shipWF s → shipWF s.rotate)
    ∧ (∀ (s : Ship) p m, shipWF s → shipWF (s.check_hit p m).2) := by
  refine ⟨?_, update_positions_wf, ?_, ?_, ?_⟩
  · intro ty sp rot bY bX
    unfold Ship.init Ship.update_positions
    simp only []
    refine ⟨?_, ?_, ?_⟩
    · split
      · rfl
      · rfl
    · split
      · rfl
      · rfl
    · intro hin
      rw [if_pos hin]
      exact ⟨rfl, generate_positions_length _ _ _, by
        show (List.replicate (ShipType.size_of ty) false).length = ShipType.size_of ty
        exact List.length_replicate _ _⟩
  · intro s d h
    exact update_positions_wf s (moveTarget s d) h
  · intro s h
    unfold Ship.rotate
    cases hr : rotateFuel 4 s with
    | none => exact h
    | some t =>
      obtain ⟨h1, h2, h3, h4⟩ := rotateFuel_wf 4 s t hr
      show t.positions = Ship.generate_positions t.start_pos t.rotation t.size ∧
        t.positions.length = t.size ∧ t.hits.length = t.size
      exact ⟨h3, h4, by rw [h1, h2]; exact h.2.2⟩
  · intro s p m h
    unfold Ship.check_hit
    cases hf : s.positions.findIdx? (fun q => decide (q = p)) with
    | none => exact h
    | some i =>
      simp only []
      split
      · exact ⟨h.1, h.2.1, by rw [List.length_set]; exact h.2.2⟩
      · exact ⟨h.1, h.2.1, by rw [List.length_set]; exact h.2.2⟩

theorem ship_size_invariant_witness :
    shipWF (Ship.init ShipType.Carrier (5, 2) Direction.RIGHT (0, 20) (0, 20)) ∧
      shipWF (wShipB.move Direction.DOWN) :=
  ⟨(ship_size_invariant.1 ShipType.Carrier (5, 2) Direction.RIGHT (0, 20) (0, 20)).2.2
     (by decide),
   ship_size_invariant.2.2.1 wShipB Direction.DOWN ⟨by decide, by decide, by decide⟩⟩

theorem ship_size_invariant_cex :
    (Ship.init ShipType.PatrolBoat (0, 0) Direction.RIGHT (0, 9) (0, 9)).positions.length ≠
      (Ship.init ShipType.PatrolBoat (0, 0) Direction.RIGHT (0, 9) (0, 9)).size := by
  decide

inductive GameState where
  | SETUP
  | READY
  | PLAYING
  | PLAYER_WON
  | OPPONENT_WON
deriving DecidableEq

/-- The manager state the terminal check reads: the two ships-remaining
counters (both initialised to `len(ShipType) = 5`) and the game state. -/
structure MState where
  player_ships_left : Int
  opponent_ships_left : Int
  game_state : GameState
deriving DecidableEq

/-- `Manager.__check_game_over`: opponent-ships-left is compared first, then
player-ships-left. -/
def check_game_over (m : MState) : MState :=
  if m.opponent_ships_left = 0 then { m with game_state := GameState.PLAYER_WON }
  else if m.player_ships_left = 0 then { m with game_state := GameState.OPPONENT_WON }
  else m

/-- Counter/terminal effect of `Manager.__fire_missile` (the local player's
shot): on Sunk, decrement the opponent's ships-remaining counter and run the
terminal check. -/
def fire_missile_step (sunk : Bool) (m : MState) : MState :=
  if sunk then
    check_game_over { m with opponent_ships_left := m.opponent_ships_left - 1 }
  else m

/-- Counter/terminal effect of `Manager.__opponents_turn` (the remote/AI
side's shot): on Sunk, run the terminal check; no counter is decremented. -/
def opponents_turn_step (sunk : Bool) (m : MState) : MState :=
  if sunk then check_game_over m else m

inductive ShotStep where
  | fire (sunk : Bool)
  | opp (sunk : Bool)
deriving DecidableEq

def shot_step : ShotStep → MState → MState
  | .fire sunk, m => fire_missile_step sunk m
  | .opp sunk, m => opponents_turn_step sunk m

def run_shots (steps : List ShotStep) (m : MState) : MState :=
  steps.foldl (fun st sp => shot_step sp st) m

def initMState : MState := ⟨5, 5, GameState.PLAYING⟩

theorem check_game_over_keep (m : MState) (h1 : m.player_ships_left = 5)
    (h2 : m.game_state ≠ GameState.OPPONENT_WON) :
    (check_game_over m).player_ships_left = 5 ∧
      (check_game_over m).game_state ≠ GameState.OPPONENT_WON := by
  unfold check_game_over
  split
  · exact ⟨h1, by simp⟩
  · split
    · rename_i hp
      rw [h1] at hp
      exact absurd hp (by norm_num)
    · exact ⟨h1, h2⟩

theorem shot_step_keep (sp : ShotStep) (m : MState) (h1 : m.player_ships_left = 5)
    (h2 : m.game_state ≠ GameState.OPPONENT_WON) :
    (shot_step sp m).player_ships_left = 5 ∧
      (shot_step sp m).game_state ≠ GameState.OPPONENT_WON := by
  cases sp with
  | fire sunk =>
    simp only [shot_step]
    unfold fire_missile_step
    split
    · exact check_game_over_keep _ h1 h2
    · exact ⟨h1, h2⟩
  | opp sunk =>
    simp only [shot_step]
    unfold opponents_turn_step
    split
    · exact check_game_over_keep m h1 h2
    · exact ⟨h1, h2⟩

theorem run_shots_invariant (steps : List ShotStep) :
    ∀ (m : MState), m.player_ships_left = 5 → m.game_state ≠ GameState.OPPONENT_WON →
      (run_shots steps m).player_ships_left = 5 ∧
        (run_shots steps m).game_state ≠ GameState.OPPONENT_WON := by
  induction steps with
  | nil => intro m h1 h2; exact ⟨h1, h2⟩
  | cons sp rest ih =>
    intro m h1 h2
    show (run_shots rest (shot_step sp m)).player_ships_left = 5 ∧ _
    obtain ⟨k1, k2⟩ := shot_step_keep sp m h1 h2
    exact ih (shot_step sp m) k1 k2

/-- C3 refuted on the code: `Manager.__opponents_turn` never decrements
`player_ships_left` when the opponent's shot sinks a player ship, so from the
initial counters (5, 5) the player counter stays 5 forever and the game can
never reach `OPPONENT_WON`, whatever sequence of shots is played; in
particular five Sunk results for the opponent leave the game in `PLAYING`.
Only `__fire_missile` (the player's own shot) decrements a counter, namely
the opponent's. -/
theorem opponent_won_unreachable :
    (run_shots (List.replicate 5 (ShotStep.opp true)) initMState).game_state =
        GameState.PLAYING ∧
      (run_shots (List.replicate 5 (ShotStep.opp true)) initMState).player_ships_left = 5 ∧
      (∀ steps, (run_shots steps initMState).game_state ≠ GameState.OPPONENT_WON) ∧
      (∀ m, (fire_missile_step true m).opponent_ships_left = m.opponent_ships_left - 1) := by
  refine ⟨by decide, by decide, ?_, ?_⟩
  · intro steps
    exact (run_shots_invariant steps initMState rfl (by decide)).2
  · intro m
    show (check_game_over
        { m with opponent_ships_left := m.opponent_ships_left - 1 }).opponent_ships_left =
      m.opponent_ships_left - 1
    unfold check_game_over
    split
    · rfl
    · split
      · rfl
      · rfl

def offset_target (opponent_center_x player_center_x : Int) (target : Pos) : Pos :=
  (target.1, player_center_x - (opponent_center_x - target.2))

structure CopyCatSt where
  fleet : Fleet
  last_player_move : Option Pos

/-- `CopyCatAI.get_move`: remember the incoming move, then resolve it against
the AI's own fleet (the base-class `get_move`, `is_missile` defaulting to
true). -/
def copycat_get_move (st : CopyCatSt) (move : Pos) : Hit × CopyCatSt :=
  let r := st.fleet.check_hit move true
  (r.1, ⟨r.2, some move⟩)

/-- `CopyCatAI.send_move`: return the most recently remembered move. -/
def copycat_send_move (st : CopyCatSt) : Option Pos :=
  st.last_player_move

/-- One strictly alternating round: an incoming shot delivered to `get_move`,
then the reply requested via `send_move`. -/
def copycat_round (st : CopyCatSt) (move : Pos) : CopyCatSt × Option Pos :=
  let st' := (copycat_get_move st move).2
  (st', copycat_send_move st')

def copycat_run (st : CopyCatSt) : List Pos → List (Option Pos)
  | [] => []
  | m :: ms => (copycat_round st m).2 :: copycat_run (copycat_round st m).1 ms

theorem copycat_run_id (ms : List Pos) : ∀ (st : CopyCatSt),
    copycat_run st ms = ms.map some := by
  induction ms with
  | nil => intro st; rfl
  | cons m rest ih =>
    intro st
    show (copycat_round st m).2 :: copycat_run (copycat_round st m).1 rest = _
    rw [ih]
    rfl

/-- C9: under strict get-then-send alternation, the list of positions the
CopyCat AI returns equals the list of incoming shot positions it was given —
the human player's shots after `__fire_missile`'s coordinate-frame
translation — so for every n the n-th outgoing move is the n-th translated
incoming shot. -/
theorem copycat_replays_shots (st : CopyCatSt) (opponent_center_x player_center_x : Int)
    (targets : List Pos) :
    copycat_run st (targets.map (offset_target opponent_center_x player_center_x)) =
      (targets.map (offset_target opponent_center_x player_center_x)).map some ∧
    ∀ n : Nat,
      (copycat_run st (targets.map (offset_target opponent_center_x player_center_x))).get? n
        = ((targets.map (offset_target opponent_center_x player_center_x)).get? n).map some := by
  refine ⟨copycat_run_id _ st, ?_⟩
  intro n
  rw [copycat_run_id _ st, List.get?_map]

/-- Python `range(a, b)` over integers. -/
def intRange (a b : Int) : List Int :=
  (List.range (b - a).toNat).map (fun (k : Nat) => a + (k : Int))

/-- `CopyCatWithRandomMissilesAI`'s precomputed `possible_moves` list: for each
row strictly inside the player bounds, the cells `(row, col)` for the columns
strictly inside the bounds; the `zip` with `[i] * player_bounds_x[1]`
truncates the column list to at most `player_bounds_x[1]` entries. -/
def possible_moves (player_bounds_y player_bounds_x : Int × Int) : List Pos :=
  (intRange (player_bounds_y.1 + 1) player_bounds_y.2).flatMap
    (fun i => ((intRange (player_bounds_x.1 + 1) player_bounds_x.2).take
        player_bounds_x.2.toNat).map (fun x => (i, x)))

/-- `CopyCatWithRandomMissilesAI.send_move`: `possible_moves.pop(move_idx)` —
return the element at the chosen index and remove it from the list. -/
def send_move_pop (idx : Nat) (l : List Pos) : Pos × List Pos :=
  (l.getD idx (0, 0), l.eraseIdx idx)

/-- A whole run of `send_move` calls, one per chosen index (the index models
`randint(0, len(possible_moves) - 1)`, an arbitrary in-range draw). -/
def run_draws : List Nat → List Pos → List Pos
  | [], _ => []
  | c :: cs, l => (send_move_pop c l).1 :: run_draws cs (send_move_pop c l).2

/-- Each chosen index is in range for the list it is drawn from (whose length
shrinks by one per draw), as `randint(0, len - 1)` guarantees. -/
def valid_choices : List Nat → Nat → Prop
  | [], _ => True
  | c :: cs, n => c < n ∧ valid_choices cs (n - 1)

theorem intRange_nodup (a b : Int) : (intRange a b).Nodup := by
  unfold intRange
  refine List.Nodup.map ?_ (List.nodup_range _)
  intro x y hxy
  have hxy' : a + (x : Int) = a + (y : Int) := hxy
  have : (x : Int) = (y : Int) := by omega
  exact_mod_cast this

theorem possible_moves_nodup (pby pbx : Int × Int) : (possible_moves pby pbx).Nodup := by
  unfold possible_moves
  rw [List.nodup_flatMap]
  constructor
  · intro i _
    refine List.Nodup.map ?_ ((List.take_sublist _ _).nodup (intRange_nodup _ _))
    intro x y hxy
    exact ((Prod.mk.injEq _ _ _ _).mp hxy).2
  · refine List.Pairwise.imp ?_ (intRange_nodup _ _)
    intro i j hij p hp hq
    simp only [List.mem_map] at hp hq
    obtain ⟨x, _, hx⟩ := hp
    obtain ⟨y, _, hy⟩ := hq
    rw [← hx] at hy
    exact hij ((Prod.mk.injEq _ _ _ _).mp hy.symm).1

theorem perm_getD_eraseIdx (l : List Pos) (i : Nat) (hi : i < l.length) :
    l.Perm (l.getD i (0, 0) :: l.eraseIdx i) := by
  rw [List.getD_eq_getElem l _ hi, List.eraseIdx_eq_take_drop_succ]
  conv_lhs => rw [← List.take_append_drop i l, List.drop_eq_getElem_cons hi]
  exact List.perm_middle

theorem run_draws_subperm (choices : List Nat) : ∀ (l : List Pos),
    valid_choices choices l.length → (run_draws choices l).Subperm l := by
  induction choices with
  | nil => intro l _; exact (List.nil_sublist l).subperm
  | cons c cs ih =>
    intro l hv
    obtain ⟨hc, hrest⟩ := hv
    show ((send_move_pop c l).1 :: run_draws cs (send_move_pop c l).2).Subperm l
    have h1 : (run_draws cs (l.eraseIdx c)).Subperm (l.eraseIdx c) := by
      apply ih
      rw [List.length_eraseIdx, if_pos hc]
      exact hrest
    have h2 := (List.subperm_cons (l.getD c (0, 0))).mpr h1
    exact h2.trans (perm_getD_eraseIdx l c hc).symm.subperm

theorem run_draws_length (choices : List Nat) : ∀ (l : List Pos),
    (run_draws choices l).length = choices.length := by
  induction choices with
  | nil => intro l; rfl
  | cons c cs ih => intro l; simp [run_draws, ih]

/-- C8: over any sequence of `send_move` draws with in-range random indices,
the CopyCat-with-random-missiles AI never returns the same target cell twice
(the outputs are nodup, because the precomputed legal-cell list is nodup and
each draw removes the drawn cell); and when there are exactly as many draws
as legal cells, every legal cell is returned exactly once. -/
theorem random_missiles_no_repeat (pby pbx : Int × Int) (choices : List Nat)
    (hvalid : valid_choices choices (possible_moves pby pbx).length) :
    (run_draws choices (possible_moves pby pbx)).Nodup ∧
      (choices.length = (possible_moves pby pbx).length →
        (run_draws choices (possible_moves pby pbx)).Perm (possible_moves pby pbx)) := by
  have hsub := run_draws_subperm choices _ hvalid
  have hnd := possible_moves_nodup pby pbx
  have houtnd : (run_draws choices (possible_moves pby pbx)).Nodup := by
    obtain ⟨t, hperm, hsl⟩ := hsub
    exact hperm.nodup_iff.mp (hsl.nodup hnd)
  refine ⟨houtnd, ?_⟩
  intro hlen
  exact hsub.perm_of_length_le (by rw [run_draws_length, hlen])

theorem random_missiles_no_repeat_witness :
    (run_draws [0] (possible_moves (0, 2) (0, 2))).Nodup ∧
      (run_draws [0] (possible_moves (0, 2) (0, 2))).Perm (possible_moves (0, 2) (0, 2)) := by
  have hv : valid_choices [0] (possible_moves (0, 2) (0, 2)).length := by
    refine ⟨?_, trivial⟩
    decide
  exact ⟨(random_missiles_no_repeat (0, 2) (0, 2) [0] hv).1,
    (random_missiles_no_repeat (0, 2) (0, 2) [0] hv).2 (by decide)⟩

end Battleship
